import Mathlib

/-!
Verification development for the overlay-plans scheduling UI.

Shallow embedding of the drag-to-reschedule engine of
`src/components/ui/range-calendar.tsx`, the pure event model of
`src/utils/event.ts`, and the payload-reconciliation layer of
`src/components/range-calendar-example.tsx`.

Calendar dates are modelled at day granularity as integers (a `Day` is the
number of days since an arbitrary epoch).  Every date the drag engine
manipulates originates from a `data-date` cell attribute holding a local
midnight, so `Math.round((d2 - d1) / 86400000)` on such values is exactly
integer day subtraction, `isSameDay` is integer equality, and
`setDate(getDate() + n)` is integer addition.
-/

/-- Calendar date at day granularity. -/
abbrev Day := Int

/-! ## Event model of `src/components/ui/range-calendar.tsx`

`RCEvent` embeds the `CalendarEvent` interface of the calendar component
(the fields the drag / lane / busy logic reads).  The `_dragData` side
channel of the source interface is modelled separately in `RefEvent`, since
only the `draggedEventRef` copy ever carries it. -/

structure RCEvent where
  id : String
  title : String
  startDate : Day
  endDate : Day
  color : Option String := none
  status : Option String := none
deriving DecidableEq, Repr

/-- Source `_dragData`: anchor date, current pointer date, dragging flag. -/
structure DragData where
  startDate : Day
  currentDate : Day
  isDragging : Bool
deriving DecidableEq, Repr

/-- The value stored in `draggedEventRef.current`: a copy of the dragged
event, optionally carrying `_dragData`. -/
structure RefEvent where
  ev : RCEvent
  dragData : Option DragData
deriving DecidableEq, Repr

/-- State of the throttling closure inside `throttledSetDragCurrentDate`
(`lastDate`, `lastUpdateTime`); initially `(null, 0)`. -/
structure ThrottleState where
  lastDate : Option Day
  lastUpdateTime : Int
deriving DecidableEq, Repr

/-- The fixed `throttleMs = 50` constant of `throttledSetDragCurrentDate`. -/
def throttleMs : Int := 50

/-- Embedding of the closure body of `throttledSetDragCurrentDate`: skip if
within `throttleMs` of the last applied update, then skip if the date equals
the last applied date, otherwise apply.  Returns the new closure state and
whether `setDragCurrentDate` was invoked. -/
def throttleStep (ts : ThrottleState) (now : Int) (date : Day) :
    ThrottleState × Bool :=
  if now - ts.lastUpdateTime < throttleMs then (ts, false)
  else if ts.lastDate = some date then (ts, false)
  else ({ lastDate := some date, lastUpdateTime := now }, true)

/-- Drag-session state of the calendar component: the three `useState`
cells, the `draggedEventRef` ref, and the throttle-closure state. -/
structure DragState where
  draggedEventId : Option String
  dragStartDate : Option Day
  dragCurrentDate : Option Day
  draggedEventRef : Option RefEvent
  throttle : ThrottleState
deriving DecidableEq, Repr

/-- The component's initial drag state. -/
def initialDragState : DragState :=
  { draggedEventId := none, dragStartDate := none, dragCurrentDate := none,
    draggedEventRef := none, throttle := { lastDate := none, lastUpdateTime := 0 } }

/-- Embedding of `resetDragState`: clears the three state cells and the ref
(the throttle closure persists across gestures, as in the source). -/
def resetDragState (s : DragState) : DragState :=
  { s with draggedEventId := none, dragStartDate := none,
           dragCurrentDate := none, draggedEventRef := none }

/-- A `(event, newStartDate, newEndDate)` invocation of the external
`onEventDragEnd` relocate callback. -/
structure Callback where
  ev : RCEvent
  newStartDate : Day
  newEndDate : Day
deriving DecidableEq, Repr

/-- Embedding of `handleDragStart` (the synchronous ref write together with
the state writes performed in its `setTimeout` continuation): stores the
original event with fresh `_dragData` in the ref and initialises the three
state cells.  Listener bookkeeping carries no session data and is omitted. -/
def handleDragStart (s : DragState) (event : RCEvent) (date : Day) : DragState :=
  let dd : DragData := { startDate := date, currentDate := date, isDragging := true }
  { s with
    draggedEventId := some event.id,
    dragStartDate := some date,
    dragCurrentDate := some date,
    draggedEventRef := some { ev := event, dragData := some dd } }

/-- Embedding of `handleDocDragOver` (the document `dragover` handler; the
cell-level `handleCellDragEvent` has the same body): early-return unless a
drag is in progress, then on a successfully extracted date update
`_dragData.currentDate` in the ref and run the throttled state update.
`extracted` is the result of `extractDateFromEvent` (`none` = no cell with a
`data-date` under the pointer), `now` is `Date.now()`. -/
def handleDocDragOver (s : DragState) (now : Int) (extracted : Option Day) :
    DragState :=
  match s.draggedEventRef with
  | none => s
  | some r =>
    match extracted with
    | none => s
    | some d =>
      let r' : RefEvent :=
        match r.dragData with
        | some dd => { r with dragData := some { dd with currentDate := d } }
        | none => r
      let t := throttleStep s.throttle now d
      { s with draggedEventRef := some r',
               dragCurrentDate := if t.2 then some d else s.dragCurrentDate,
               throttle := t.1 }

/-- Embedding of `handleDocDragEnd` (also reached from the element-level
`handleDragEnd`, which forwards a synthetic event to it).  The source's
`if (!startDate || !currentDate)` guard is unreachable once `_dragData`
exists (both fields are `Date` objects, which are always truthy), so it has
no counterpart here.  The source checks that the `onEventDragEnd` prop is
present; the embedding assumes a callback is installed, which is the only
case the claims speak about. -/
def handleDocDragEnd (s : DragState) : DragState × List Callback :=
  match s.draggedEventRef with
  | none => (resetDragState s, [])
  | some r =>
    match r.dragData with
    | none => (resetDragState s, [])
    | some dd =>
      let daysDiff : Int := dd.currentDate - dd.startDate
      if daysDiff ≠ 0 then
        (resetDragState s,
         [{ ev := r.ev,
            newStartDate := r.ev.startDate + daysDiff,
            newEndDate := r.ev.endDate + daysDiff }])
      else
        (resetDragState s, [])

/-- Embedding of `handleDrop` (also reached from the document-level
`handleDocDrop` and the cell-level `handleCellDrop`, which forward synthetic
events to it).  `dragData.currentDate || extractDateFromEvent(e)` always
takes the first disjunct (a `Date` is truthy), and the `endDate` truthiness
checks likewise always succeed.  Note the early returns leave the state
untouched, and the commit branch clears `draggedEventId`, `dragCurrentDate`
and the ref but not `dragStartDate` — exactly the source's lines. -/
def handleDrop (events : List RCEvent) (s : DragState) :
    DragState × List Callback :=
  match s.draggedEventRef with
  | none => (s, [])
  | some r =>
    match r.dragData with
    | none => (s, [])
    | some dd =>
      let targetDate := dd.currentDate
      let diffDays : Int := targetDate - dd.startDate
      if diffDays = 0 then (s, [])
      else
        match s.draggedEventId with
        | none => (s, [])
        | some eid =>
          match events.find? (fun e => e.id == eid) with
          | none => (s, [])
          | some eventToMove =>
            ({ s with draggedEventId := none, dragCurrentDate := none,
                      draggedEventRef := none },
             [{ ev := eventToMove,
                newStartDate := eventToMove.startDate + diffDays,
                newEndDate := eventToMove.endDate + diffDays }])

/-- Embedding of the document-level `handleDragEnd` defined inside the
`useEffect` at the bottom of the component: unconditionally clears
`draggedEventId`, `dragCurrentDate` and the ref (but not `dragStartDate`),
and never invokes the callback. -/
def handleEffectDragEnd (s : DragState) : DragState × List Callback :=
  ({ s with draggedEventId := none, dragCurrentDate := none,
            draggedEventRef := none }, [])

/-- The redundant termination signals a gesture can receive: document-level
`dragend`/`drop` routed to `handleDocDragEnd`, element-level `dragend`
(forwarded to `handleDocDragEnd`), document- or cell-level `drop` routed to
`handleDrop`, and the document-level effect's bare `dragend` cleaner. -/
inductive TermSignal where
  | docDragEnd
  | elemDragEnd
  | docDrop
  | cellDrop
  | effectDragEnd
deriving DecidableEq, Repr

/-- Dispatch one termination signal to its handler. -/
def procTermSignal (events : List RCEvent) (s : DragState) :
    TermSignal → DragState × List Callback
  | TermSignal.docDragEnd => handleDocDragEnd s
  | TermSignal.elemDragEnd => handleDocDragEnd s
  | TermSignal.docDrop => handleDrop events s
  | TermSignal.cellDrop => handleDrop events s
  | TermSignal.effectDragEnd => handleEffectDragEnd s

/-- Process a sequence of termination signals, concatenating the relocate
callbacks they emit. -/
def procTermSignals (events : List RCEvent) (s : DragState) :
    List TermSignal → DragState × List Callback
  | [] => (s, [])
  | sig :: rest =>
    let p := procTermSignal events s sig
    let q := procTermSignals events p.1 rest
    (q.1, p.2 ++ q.2)

/-- Apply a sequence of position-update signals (each a `Date.now()`
timestamp plus the date extracted from under the pointer, if any). -/
def applyMoves (s : DragState) : List (Int × Option Day) → DragState
  | [] => s
  | m :: rest => applyMoves (handleDocDragOver s m.1 m.2) rest

/-- The last successfully extracted date of a move sequence, defaulting to
the anchor date `a` when no move carried a date. -/
def lastExtracted (a : Day) : List (Int × Option Day) → Day
  | [] => a
  | (_, none) :: rest => lastExtracted a rest
  | (_, some d) :: rest => lastExtracted d rest

/-! ## Lane assignment and per-cell rendering -/

/-- Inclusive day-count duration of an event:
`Math.round((endDate - startDate) / 86400000) + 1`. -/
def durationDays (e : RCEvent) : Int := e.endDate - e.startDate + 1

/-- The non-`busy` filter applied before lane assignment and rendering. -/
def nonBusy (l : List RCEvent) : List RCEvent :=
  l.filter (fun e => e.status != some "busy")

/-- Ids of a list in order of first occurrence, duplicates removed —
the key-iteration order of the JavaScript `Map` built in
`eventPositionMap`. -/
def keepFirstIds (seen : List String) : List RCEvent → List String
  | [] => []
  | e :: t =>
    if e.id ∈ seen then keepFirstIds seen t
    else e.id :: keepFirstIds (e.id :: seen) t

/-- The last event of `l` carrying id `i` — the value a JavaScript `Map`
holds for key `i` after inserting every `[e.id, e]` pair of `l`. -/
def lastWithId (l : List RCEvent) (i : String) : Option RCEvent :=
  (l.filter (fun e => e.id == i)).getLast?

/-- Deduplication by id with JavaScript `Map` semantics: keys in order of
first occurrence, each mapped to the last event bearing that id. -/
def dedupById (l : List RCEvent) : List RCEvent :=
  (keepFirstIds [] l).filterMap (lastWithId l)

/-- The comparator of `eventPositionMap`'s sort, `durationB - durationA`,
as the ordering relation "a comes no later than b": descending duration. -/
def laneOrder (a b : RCEvent) : Prop := durationDays b ≤ durationDays a

instance : DecidableRel laneOrder := fun a b => by
  unfold laneOrder; infer_instance

instance : IsTotal RCEvent laneOrder :=
  ⟨fun a b => le_total (durationDays b) (durationDays a)⟩

instance : IsTrans RCEvent laneOrder :=
  ⟨fun _ _ _ h1 h2 => le_trans h2 h1⟩

/-- Embedding of `eventPositionMap`'s sorted unique event list: dedup the
non-busy events by id, then sort by descending duration.  JavaScript's
`Array.prototype.sort` is stable (ES2019), which a stable insertion sort
with the reflexive total preorder `laneOrder` reproduces: ties keep their
original relative order. -/
def sortedUniqueEvents (l : List RCEvent) : List RCEvent :=
  List.insertionSort laneOrder (dedupById (nonBusy l))

/-- The ids of the sorted unique events, in lane order. -/
def rankedIds (l : List RCEvent) : List String :=
  (sortedUniqueEvents l).map (fun e => e.id)

/-- Index of the first occurrence of an id in a list of ids. -/
def idIndex (i : String) : List String → Option Nat
  | [] => none
  | j :: t => if j == i then some 0 else (idIndex i t).map (fun n => n + 1)

/-- Embedding of the `eventPositionMap` lookup: the lane (grid row) of an
event id is one plus its index in the sorted order (`index + 1`; grid rows
start at 1). -/
def laneOf (l : List RCEvent) (i : String) : Option Nat :=
  (idIndex i (rankedIds l)).map (fun n => n + 1)

/-- Embedding of the `adjustedEvents` memo: while a drag with a nonzero day
offset is in progress, show the dragged event shifted by the offset; in
every other case return the authoritative list unchanged.  (The memo's
lazily-initialising write to `draggedEventRef` is a side channel that only
fires when the ref is already empty and stores the unshifted event; it does
not affect the returned list.) -/
def adjustedEvents (events : List RCEvent) (draggedEventId : Option String)
    (dragStartDate dragCurrentDate : Option Day) : List RCEvent :=
  match draggedEventId, dragCurrentDate, dragStartDate with
  | some did, some c, some a =>
    let daysDiff : Int := c - a
    if daysDiff ≠ 0 then
      events.map (fun e =>
        if e.id == did then
          { e with startDate := e.startDate + daysDiff,
                   endDate := e.endDate + daysDiff }
        else e)
    else events
  | _, _, _ => events

/-- Embedding of `isEventOnDate`: after flooring the event start to
00:00:00.000, ceiling the event end to 23:59:59.999 and moving the probe to
noon, the containment test is day-interval membership. -/
def isEventOnDate (e : RCEvent) (d : Day) : Bool :=
  decide (e.startDate ≤ d) && decide (d ≤ e.endDate)

/-- Embedding of the filter chain opening `renderEvents`: the events the
per-lane rendering pass shows on date `d` — the adjusted list with busy
events removed, restricted to those intersecting `d`. -/
def renderEventsOn (events : List RCEvent) (draggedEventId : Option String)
    (dragStartDate dragCurrentDate : Option Day) (d : Day) : List RCEvent :=
  ((adjustedEvents events draggedEventId dragStartDate dragCurrentDate).filter
      (fun e => e.status != some "busy")).filter
    (fun e => isEventOnDate e d)

/-- Embedding of `getBusyEventsForDate`: the busy events intersecting a
date (backs the unavailable-date popover). -/
def getBusyEventsForDate (d : Day) (allEvents : List RCEvent) : List RCEvent :=
  (allEvents.filter (fun e => e.status == some "busy")).filter
    (fun e => isEventOnDate e d)

/-- Embedding of the `disabledRanges` memo of
`range-calendar-example.tsx`: one whole-day interval per busy event. -/
def disabledRanges (events : List RCEvent) : List (Day × Day) :=
  (events.filter (fun e => e.status == some "busy")).map
    (fun e => (e.startDate, e.endDate))

/-! ## Pure event model of `src/utils/event.ts` -/

/-- Embedding of the `DateRange` class (`start`/`end` fields; `end` is a
Lean keyword, so the second field is named `stop`). -/
structure DateRange where
  start : Day
  stop : Day
deriving DecidableEq, Repr

/-- Embedding of the `CalendarEvent` interface of `src/utils/event.ts`
(distinct from the calendar component's `CalendarEvent`). -/
structure UtilEvent where
  id : String
  title : String
  description : Option String := none
  dateRange : DateRange
  color : Option String := none
  type : Option String := none
deriving DecidableEq, Repr

/-- Embedding of `moveEventByDays`: `days = 0` returns the event itself;
otherwise both boundaries are shifted by `days` days. -/
def moveEventByDays (event : UtilEvent) (days : Int) : UtilEvent :=
  if days = 0 then event
  else
    { event with dateRange :=
        { start := event.dateRange.start + days,
          stop := event.dateRange.stop + days } }

/-- Embedding of `updateEventDates`: optional replacement boundaries, with
the end clamped up to the start when it would precede it. -/
def updateEventDates (event : UtilEvent) (newStart newEnd : Option Day) :
    UtilEvent :=
  let start := newStart.getD event.dateRange.start
  let e := newEnd.getD event.dateRange.stop
  let validEnd := if e < start then start else e
  { event with dateRange := { start := start, stop := validEnd } }

/-! ## Reconciliation layer of `src/components/range-calendar-example.tsx` -/

/-- A raw timeslot record as the extraction and validation code reads it.
`startTime`/`endTime` are `none` when the field is absent (the falsiness the
validation filter tests). -/
structure RawTimeslot where
  id : Option String := none
  label : Option String := none
  startTime : Option Day := none
  endTime : Option Day := none
  status : Option String := none
  color : Option String := none
deriving DecidableEq, Repr

/-- Shape of the `data` field of an envelope payload: a bare array, an
object with a `timeslots` array (or without one), or something else. -/
inductive DataField where
  | arr (ts : List RawTimeslot)
  | obj (timeslots : Option (List RawTimeslot))
  | other
deriving DecidableEq, Repr

/-- Inbound payload shapes distinguished by `extractTimeslots`: a bare
array; an object with optional `success` flag, optional `timeslots` array
and optional `data` field; anything else. -/
inductive Payload where
  | arr (ts : List RawTimeslot)
  | obj (success : Bool) (timeslots : Option (List RawTimeslot))
        (dataField : Option DataField)
  | other
deriving DecidableEq, Repr

/-- Embedding of `extractTimeslots`: try the payload shapes in source
order — bare array; `data.timeslots`; (the `success && timeslots` branch is
subsumed by the previous one); `success` envelope with `data.timeslots`
array or bare `data` array; otherwise no timeslots. -/
def extractTimeslots : Payload → List RawTimeslot
  | Payload.arr ts => ts
  | Payload.obj success timeslots dataField =>
    match timeslots with
    | some ts => ts
    | none =>
      if success then
        match dataField with
        | some (DataField.obj (some ts)) => ts
        | some (DataField.arr ts) => ts
        | _ => []
      else []
  | Payload.other => []

/-- The per-record validation filter: a record lacking a start or end
boundary is dropped. -/
def hasRequiredFields (t : RawTimeslot) : Bool :=
  t.startTime.isSome && t.endTime.isSome

/-- The raw-record-to-event mapping of `processTimeslots`: default color by
status with an explicit color overriding it, `busy` status preserved and
every other status mapped to `available`.  (The `getD 0` defaults are never
reached: the mapping is applied only to records that passed
`hasRequiredFields`, mirroring the source's filter-then-map order.) -/
def toCalendarEvent (t : RawTimeslot) : RCEvent :=
  { id := t.id.getD "temp",
    title := (t.label <|> t.status).getD "Untitled",
    startDate := t.startTime.getD 0,
    endDate := t.endTime.getD 0,
    color := some (t.color.getD
      (if t.status == some "busy" then "#ff5722" else "#4CAF50")),
    status := some (if t.status == some "busy" then "busy" else "available") }

/-- Embedding of `processTimeslots` as a function from the previous
authoritative event list and the inbound payload to the new list: an empty
extraction clears the list; otherwise the valid records are mapped, and —
per the source's `if (calendarEvents.length > 0)` guard — the previous list
is kept when every extracted record was dropped as invalid. -/
def processTimeslots (prev : List RCEvent) (payload : Payload) :
    List RCEvent :=
  let timeslots := extractTimeslots payload
  if timeslots.isEmpty then []
  else
    let calendarEvents := (timeslots.filter hasRequiredFields).map toCalendarEvent
    if calendarEvents.isEmpty then prev else calendarEvents

/-! ## Sample data for the closed counterexample and witness theorems -/

/-- A sample 3-day event ("1", days 10–12). -/
def sampleEvent : RCEvent :=
  { id := "1", title := "t", startDate := 10, endDate := 12 }

/-- A sample previous authoritative event list. -/
def samplePrev : List RCEvent :=
  [{ id := "9", title := "p", startDate := 0, endDate := 1 }]

/-- A drag state whose required session data is missing at termination
(the ref is empty) while the render-state cells are still populated. -/
def missingDataState : DragState :=
  { draggedEventId := some "1", dragStartDate := some 0,
    dragCurrentDate := some 0, draggedEventRef := none,
    throttle := { lastDate := none, lastUpdateTime := 0 } }

/-- A mid-gesture state for `sampleEvent`: anchor day 0, current day 2. -/
def activeDropState : DragState :=
  applyMoves (handleDragStart initialDragState sampleEvent 0) [(100, some 2)]

/-! ## C9 and C10: pure event-model algebra -/

/-- C9: `moveByDays(E, 0)` returns `E` itself, and for every integer `n`,
`moveByDays(moveByDays(E, n), -n) = E`. -/
theorem c9_move_by_days_identity_roundtrip (event : UtilEvent) (n : Int) :
    moveEventByDays event 0 = event ∧
    moveEventByDays (moveEventByDays event n) (-n) = event := by
  constructor
  · simp [moveEventByDays]
  · by_cases hn : n = 0
    · subst hn; simp [moveEventByDays]
    · have hneg : -n ≠ 0 := by omega
      cases event with
      | mk id title description dateRange color type =>
        cases dateRange with
        | mk start stop =>
          simp [moveEventByDays, hn, hneg]

/-- C10: `moveEventByDays` and `updateEventDates` modify only the event's
`dateRange`; the returned event's `id`, `title`, `description`, `color` and
`type` equal those of the input. -/
theorem c10_frame_preservation (event : UtilEvent) (n : Int)
    (newStart newEnd : Option Day) :
    (moveEventByDays event n).id = event.id ∧
    (moveEventByDays event n).title = event.title ∧
    (moveEventByDays event n).description = event.description ∧
    (moveEventByDays event n).color = event.color ∧
    (moveEventByDays event n).type = event.type ∧
    (updateEventDates event newStart newEnd).id = event.id ∧
    (updateEventDates event newStart newEnd).title = event.title ∧
    (updateEventDates event newStart newEnd).description = event.description ∧
    (updateEventDates event newStart newEnd).color = event.color ∧
    (updateEventDates event newStart newEnd).type = event.type := by
  unfold moveEventByDays updateEventDates
  by_cases hn : n = 0 <;> simp [hn]

/-! ## C5: throttled position updates -/

/-- C5 counterexample: the claim says an update whose calendar date differs
from the last-applied date is applied immediately, but the source checks the
50ms window first — here the last update was applied at time 100 on day 0,
and at time 110 an update for the different day 5 is *skipped*. -/
theorem c5_throttle_counterexample :
    ({ lastDate := some 0, lastUpdateTime := 100 } : ThrottleState).lastDate ≠
        some (5 : Day) ∧
    throttleStep { lastDate := some 0, lastUpdateTime := 100 } 110 5 =
      ({ lastDate := some 0, lastUpdateTime := 100 }, false) := by
  constructor
  · decide
  · rfl

/-- C5 amended: an update is applied iff at least the fixed 50ms throttle
interval has elapsed since the last applied update *and* its calendar date
differs from the last-applied date; inside the window every update is
skipped, date change or not, and a repeat of the last-applied date is never
applied. -/
theorem c5_throttle_amended (ts : ThrottleState) (now : Int) (date : Day) :
    (throttleStep ts now date).2 = true ↔
      (throttleMs ≤ now - ts.lastUpdateTime ∧ ts.lastDate ≠ some date) := by
  unfold throttleStep
  by_cases h1 : now - ts.lastUpdateTime < throttleMs <;>
    by_cases h2 : ts.lastDate = some date <;>
      simp [h1, h2] <;> omega

/-- C5 amended witness: outside the window a date change is applied. -/
theorem c5_throttle_amended_witness :
    (throttleStep { lastDate := some 0, lastUpdateTime := 100 } 200 5).2 = true :=
  (c5_throttle_amended { lastDate := some 0, lastUpdateTime := 100 } 200 5).mpr
    (by constructor
        · decide
        · decide)

/-! ## C3: missing session data at termination -/

/-- C3 counterexample: at a drop termination with the required session data
missing (empty ref), the claim says the session returns to Idle with the
drag state reset — but `handleDrop` returns early without resetting
anything: `draggedEventId` is still populated afterwards.  (No callback
fires, which is the half of the claim that does hold.) -/
theorem c3_drop_missing_data_counterexample :
    missingDataState.draggedEventRef = none ∧
    (handleDrop [] missingDataState).2 = [] ∧
    (handleDrop [] missingDataState).1.draggedEventId = some "1" ∧
    (handleDrop [] missingDataState).1 ≠ resetDragState missingDataState := by
  refine ⟨rfl, rfl, rfl, ?_⟩
  decide

/-- C3 amended: at a termination with the required session data missing (no
stored dragged-event record, or the record carries no `_dragData`), no
relocate callback fires; the dragend handler (`handleDocDragEnd`) resets
the session to Idle, while the drop handler (`handleDrop`) returns early
leaving the drag state unchanged. -/
theorem c3_missing_data_amended (events : List RCEvent) (s : DragState)
    (h : s.draggedEventRef = none ∨
         ∃ r, s.draggedEventRef = some r ∧ r.dragData = none) :
    (handleDocDragEnd s).2 = [] ∧
    (handleDocDragEnd s).1 = resetDragState s ∧
    handleDrop events s = (s, []) := by
  rcases h with h | ⟨r, hr, hdd⟩
  · simp [handleDocDragEnd, handleDrop, h]
  · simp [handleDocDragEnd, handleDrop, hr, hdd]

/-- C3 amended witness: concrete missing-data state. -/
theorem c3_missing_data_amended_witness :
    (handleDocDragEnd missingDataState).2 = [] ∧
    (handleDocDragEnd missingDataState).1 = resetDragState missingDataState ∧
    handleDrop [] missingDataState = (missingDataState, []) :=
  c3_missing_data_amended [] missingDataState (Or.inl rfl)

/-! ## C4: session destruction on gesture end -/

/-- C4 counterexample: on the drop-committed gesture-end path the claim
says all fields including `dragStartDate` are cleared, but `handleDrop`'s
commit branch leaves `dragStartDate` populated: here a drop commits (the
callback fires) and `dragStartDate` is still `some 0`. -/
theorem c4_drop_keeps_start_date_counterexample :
    (handleDrop [sampleEvent] activeDropState).2 ≠ [] ∧
    (handleDrop [sampleEvent] activeDropState).1.dragStartDate = some 0 := by
  constructor
  · decide
  · rfl

/-- C4 amended: `handleDocDragEnd` (the dragend path) clears all four
session fields on every gesture-end path; the drop-commit path and the
document-level dragend effect clear `draggedEventId`, `dragCurrentDate`
and the dragged-event ref but leave `dragStartDate` unchanged. -/
theorem c4_session_cleanup_amended (events : List RCEvent) (s : DragState) :
    (handleDocDragEnd s).1 = resetDragState s ∧
    (handleEffectDragEnd s).1.draggedEventId = none ∧
    (handleEffectDragEnd s).1.dragCurrentDate = none ∧
    (handleEffectDragEnd s).1.draggedEventRef = none ∧
    (handleEffectDragEnd s).1.dragStartDate = s.dragStartDate ∧
    ((handleDrop events s).2 ≠ [] →
      (handleDrop events s).1.draggedEventId = none ∧
      (handleDrop events s).1.dragCurrentDate = none ∧
      (handleDrop events s).1.draggedEventRef = none ∧
      (handleDrop events s).1.dragStartDate = s.dragStartDate) := by
  refine ⟨?_, rfl, rfl, rfl, rfl, ?_⟩
  · rcases hr : s.draggedEventRef with _ | r
    · simp [handleDocDragEnd, hr]
    · rcases hdd : r.dragData with _ | dd
      · simp [handleDocDragEnd, hr, hdd]
      · by_cases hd : (dd.currentDate - dd.startDate : Int) = 0 <;>
          simp [handleDocDragEnd, hr, hdd, hd]
  · intro hne
    rcases hr : s.draggedEventRef with _ | r
    · simp [handleDrop, hr] at hne
    · rcases hdd : r.dragData with _ | dd
      · simp [handleDrop, hr, hdd] at hne
      · by_cases hd : (dd.currentDate - dd.startDate : Int) = 0
        · simp [handleDrop, hr, hdd, hd] at hne
        · rcases hid : s.draggedEventId with _ | eid
          · simp [handleDrop, hr, hdd, hd, hid] at hne
          · rcases hf : events.find? (fun e => e.id == eid) with _ | etm
            · simp [handleDrop, hr, hdd, hd, hid, hf] at hne
            · simp [handleDrop, hr, hdd, hd, hid, hf]

/-- C4 amended witness: concrete commit via drop. -/
theorem c4_session_cleanup_amended_witness :
    (handleDrop [sampleEvent] activeDropState).2 ≠ [] ∧
    (handleDrop [sampleEvent] activeDropState).1.dragStartDate =
      activeDropState.dragStartDate :=
  ⟨by decide,
   ((c4_session_cleanup_amended [sampleEvent] activeDropState).2.2.2.2.2
     (by decide)).2.2.2⟩

/-! ## C8: payload reconciliation -/

/-- C8 counterexample: a snapshot whose only record lacks `endTime` yields
an empty canonical list, but — contrary to "the resulting canonical event
list replaces the entire previous authoritative event list" — the source's
`if (calendarEvents.length > 0)` guard keeps the previous list. -/
theorem c8_invalid_snapshot_counterexample :
    (((extractTimeslots (Payload.arr [{ id := some "1", startTime := some 10 }])).filter
        hasRequiredFields).map toCalendarEvent) = [] ∧
    processTimeslots samplePrev (Payload.arr [{ id := some "1", startTime := some 10 }]) =
      samplePrev ∧
    samplePrev ≠ [] := by
  refine ⟨rfl, rfl, ?_⟩
  decide

/-- C8 amended: extraction tries the documented shapes in order with the
first match winning (a top-level `timeslots` array wins over any `data`
field; a `success` envelope exposes `data.timeslots` or a bare `data`
array), an unrecognized shape yields zero events rather than an error, a
record lacking a start or end boundary is dropped while the remaining
records are processed; the canonical list replaces the previous list
whenever some record survives validation, an empty extraction clears the
list, but when every extracted record is dropped as invalid the previous
list is retained. -/
theorem c8_reconciliation_amended (prev : List RCEvent) (success : Bool)
    (ts : List RawTimeslot) (dataField : Option DataField) (p : Payload) :
    extractTimeslots (Payload.arr ts) = ts ∧
    extractTimeslots (Payload.obj success (some ts) dataField) = ts ∧
    extractTimeslots (Payload.obj true none (some (DataField.obj (some ts)))) = ts ∧
    extractTimeslots (Payload.obj true none (some (DataField.arr ts))) = ts ∧
    extractTimeslots (Payload.obj success none none) = [] ∧
    extractTimeslots (Payload.obj false none dataField) = [] ∧
    extractTimeslots Payload.other = [] ∧
    (extractTimeslots p = [] → processTimeslots prev p = []) ∧
    (ts.filter hasRequiredFields ≠ [] →
      processTimeslots prev (Payload.arr ts) =
        (ts.filter hasRequiredFields).map toCalendarEvent) ∧
    (ts ≠ [] → ts.filter hasRequiredFields = [] →
      processTimeslots prev (Payload.arr ts) = prev) := by
  refine ⟨rfl, rfl, rfl, rfl, ?_, ?_, rfl, ?_, ?_, ?_⟩
  · cases success <;> rfl
  · cases dataField <;> rfl
  · intro h
    simp [processTimeslots, h]
  · intro h
    have hts : ts ≠ [] := by
      intro he
      subst he
      simp at h
    simp [processTimeslots, extractTimeslots, List.isEmpty_iff, hts, h]
  · intro hts h
    simp [processTimeslots, extractTimeslots, List.isEmpty_iff, hts, h]

/-- C8 amended witness: a mixed snapshot with one invalid and one valid
record yields exactly the valid record's event. -/
theorem c8_reconciliation_amended_witness :
    processTimeslots samplePrev
        (Payload.arr [{ id := some "1", startTime := some 10 },
                      { id := some "2", startTime := some 3, endTime := some 4 }]) =
      ([{ id := some "1", startTime := some 10 },
        ({ id := some "2", startTime := some 3, endTime := some 4 } : RawTimeslot)].filter
          hasRequiredFields).map toCalendarEvent :=
  (c8_reconciliation_amended samplePrev true
      [{ id := some "1", startTime := some 10 },
       { id := some "2", startTime := some 3, endTime := some 4 }] none
      Payload.other).2.2.2.2.2.2.2.2.1 (by decide)

/-! ## C7: busy events never render, always disable their days -/

/-- Members of the adjusted list are per-event images of the authoritative
list preserving `id` and `status`. -/
lemma adjustedEvents_mem (events : List RCEvent) (did : Option String)
    (a c : Option Day) (f : RCEvent)
    (hf : f ∈ adjustedEvents events did a c) :
    ∃ g ∈ events, f.id = g.id ∧ f.status = g.status := by
  unfold adjustedEvents at hf
  split at hf
  case _ i cd ad =>
    simp only [ne_eq] at hf
    split at hf
    case _ hdiff =>
      rcases List.mem_map.mp hf with ⟨g, hg, hfg⟩
      subst hfg
      by_cases hid : (g.id == i) = true
      · rw [if_pos hid]
        exact ⟨g, hg, rfl, rfl⟩
      · rw [if_neg hid]
        exact ⟨g, hg, rfl, rfl⟩
    case _ hdiff =>
      exact ⟨f, hf, rfl, rfl⟩
  case _ =>
    exact ⟨f, hf, rfl, rfl⟩

/-- C7: a busy event never appears in the per-lane rendering pass for any
date (no rendered indicator carries its id), and every day it spans lies in
a disabled-date interval derived from it and is reported by the busy-events
lookup backing the popover. -/
theorem c7_busy_never_rendered_always_disabled (events : List RCEvent)
    (did : Option String) (a c : Option Day) (e : RCEvent) (d : Day)
    (hmem : e ∈ events) (hbusy : e.status = some "busy")
    (hnodup : (events.map (fun x => x.id)).Nodup) :
    (∀ f ∈ renderEventsOn events did a c d, f.id ≠ e.id) ∧
    (isEventOnDate e d = true →
      ((e.startDate, e.endDate) ∈ disabledRanges events ∧
       e.startDate ≤ d ∧ d ≤ e.endDate ∧
       e ∈ getBusyEventsForDate d events)) := by
  constructor
  · intro f hf heq
    unfold renderEventsOn at hf
    have hf1 := List.mem_filter.mp hf
    have hf2 := List.mem_filter.mp hf1.1
    rcases adjustedEvents_mem events did a c f hf2.1 with ⟨g, hg, hid, hst⟩
    have hge : g = e := by
      have := List.inj_on_of_nodup_map hnodup
      exact this hg hmem (by rw [← hid, heq])
    have : f.status = some "busy" := by rw [hst, hge, hbusy]
    rw [this] at hf2
    simp at hf2
  · intro hon
    refine ⟨?_, ?_, ?_, ?_⟩
    · unfold disabledRanges
      exact List.mem_map.mpr ⟨e, List.mem_filter.mpr ⟨hmem, by simp [hbusy]⟩, rfl⟩
    · exact of_decide_eq_true (Bool.and_elim_left hon)
    · exact of_decide_eq_true (Bool.and_elim_right hon)
    · unfold getBusyEventsForDate
      exact List.mem_filter.mpr ⟨List.mem_filter.mpr ⟨hmem, by simp [hbusy]⟩, hon⟩

/-- C7 witness: a concrete busy event on a day it spans. -/
theorem c7_busy_never_rendered_always_disabled_witness :
    (∀ f ∈ renderEventsOn
        [{ id := "b", title := "B", startDate := 3, endDate := 5,
           status := some "busy" }] none none none 4, f.id ≠ "b") ∧
    (({ id := "b", title := "B", startDate := 3, endDate := 5,
        status := some "busy" } : RCEvent).startDate, (3:Day) + 2) ∈
      disabledRanges
        [{ id := "b", title := "B", startDate := 3, endDate := 5,
           status := some "busy" }] := by
  have h := c7_busy_never_rendered_always_disabled
    [{ id := "b", title := "B", startDate := 3, endDate := 5,
       status := some "busy" }] none none none
    { id := "b", title := "B", startDate := 3, endDate := 5,
      status := some "busy" } 4
    (by simp) rfl (by simp)
  exact ⟨h.1, by simpa using (h.2 (by decide)).1⟩

/-! ## Termination-signal lemmas shared by the drag-gesture claims -/

/-- Every path of `handleDocDragEnd` runs `resetDragState`. -/
lemma handleDocDragEnd_fst (s : DragState) :
    (handleDocDragEnd s).1 = resetDragState s := by
  rcases hr : s.draggedEventRef with _ | r
  · simp [handleDocDragEnd, hr]
  · rcases hdd : r.dragData with _ | dd
    · simp [handleDocDragEnd, hr, hdd]
    · by_cases hd : (dd.currentDate - dd.startDate : Int) = 0 <;>
        simp [handleDocDragEnd, hr, hdd, hd]

/-- `handleDocDragEnd` emits at most one callback. -/
lemma handleDocDragEnd_snd_cases (s : DragState) :
    (handleDocDragEnd s).2 = [] ∨ ∃ cb, (handleDocDragEnd s).2 = [cb] := by
  rcases hr : s.draggedEventRef with _ | r
  · left; simp [handleDocDragEnd, hr]
  · rcases hdd : r.dragData with _ | dd
    · left; simp [handleDocDragEnd, hr, hdd]
    · by_cases hd : (dd.currentDate - dd.startDate : Int) = 0
      · left; simp [handleDocDragEnd, hr, hdd, hd]
      · right
        refine ⟨Callback.mk r.ev (r.ev.startDate + (dd.currentDate - dd.startDate))
            (r.ev.endDate + (dd.currentDate - dd.startDate)), ?_⟩
        simp [handleDocDragEnd, hr, hdd, hd]

/-- `handleDrop` either leaves the state untouched emitting nothing, or
commits one callback and clears the ref. -/
lemma handleDrop_cases (events : List RCEvent) (s : DragState) :
    handleDrop events s = (s, []) ∨
    (∃ cb, (handleDrop events s).2 = [cb] ∧
      (handleDrop events s).1.draggedEventRef = none) := by
  rcases hr : s.draggedEventRef with _ | r
  · left; simp [handleDrop, hr]
  · rcases hdd : r.dragData with _ | dd
    · left; simp [handleDrop, hr, hdd]
    · by_cases hd : (dd.currentDate - dd.startDate : Int) = 0
      · left; simp [handleDrop, hr, hdd, hd]
      · rcases hid : s.draggedEventId with _ | eid
        · left; simp [handleDrop, hr, hdd, hd, hid]
        · rcases hf : events.find? (fun e => e.id == eid) with _ | etm
          · left; simp [handleDrop, hr, hdd, hd, hid, hf]
          · right
            refine ⟨Callback.mk etm (etm.startDate + (dd.currentDate - dd.startDate))
                (etm.endDate + (dd.currentDate - dd.startDate)), ?_, ?_⟩
            · simp [handleDrop, hr, hdd, hd, hid, hf]
            · simp [handleDrop, hr, hdd, hd, hid, hf]

/-- From a state with an empty ref, any termination signal emits nothing
and leaves the ref empty. -/
lemma procTermSignal_refNone (events : List RCEvent) (s : DragState)
    (sig : TermSignal) (h : s.draggedEventRef = none) :
    (procTermSignal events s sig).2 = [] ∧
    (procTermSignal events s sig).1.draggedEventRef = none := by
  cases sig <;>
    simp [procTermSignal, handleDocDragEnd, handleDrop, handleEffectDragEnd,
      resetDragState, h]

/-- Any termination signal emits at most one callback, and when it does
emit one the resulting ref is empty. -/
lemma procTermSignal_emit (events : List RCEvent) (s : DragState)
    (sig : TermSignal) :
    (procTermSignal events s sig).2 = [] ∨
    (∃ cb, (procTermSignal events s sig).2 = [cb] ∧
      (procTermSignal events s sig).1.draggedEventRef = none) := by
  cases sig
  case docDrop => exact (handleDrop_cases events s).imp (fun h => by rw [procTermSignal, h]) id
  case cellDrop => exact (handleDrop_cases events s).imp (fun h => by rw [procTermSignal, h]) id
  case effectDragEnd => left; rfl
  all_goals {
    rcases handleDocDragEnd_snd_cases s with h | ⟨cb, h⟩
    · left; exact h
    · right
      refine ⟨cb, h, ?_⟩
      show (handleDocDragEnd s).1.draggedEventRef = none
      rw [handleDocDragEnd_fst]
      rfl }

/-- From an empty-ref state a whole signal sequence emits nothing. -/
lemma procTermSignals_refNone (events : List RCEvent) :
    ∀ (sigs : List TermSignal) (s : DragState),
      s.draggedEventRef = none →
      (procTermSignals events s sigs).2 = [] ∧
      (procTermSignals events s sigs).1.draggedEventRef = none
  | [], s, h => ⟨rfl, h⟩
  | sig :: rest, s, h => by
    have h1 := procTermSignal_refNone events s sig h
    have h2 := procTermSignals_refNone events rest (procTermSignal events s sig).1 h1.2
    simp [procTermSignals, h1.1, h2.1, h2.2]

/-- A state from which no termination signal can commit: either no ref, or
no `_dragData`, or a zero day offset. -/
def quiescent (s : DragState) : Prop :=
  ∀ r, s.draggedEventRef = some r →
    ∀ dd, r.dragData = some dd → dd.currentDate = dd.startDate

/-- A quiescent state stays quiescent and emits nothing under any single
termination signal. -/
lemma quiescent_procTermSignal (events : List RCEvent) (s : DragState)
    (sig : TermSignal) (h : quiescent s) :
    (procTermSignal events s sig).2 = [] ∧
    quiescent (procTermSignal events s sig).1 := by
  have hreset : ∀ t : DragState, quiescent (resetDragState t) := by
    intro t r hr
    simp [resetDragState] at hr
  cases sig
  case effectDragEnd =>
    refine ⟨rfl, ?_⟩
    intro r hr
    simp [procTermSignal, handleEffectDragEnd] at hr
  case docDrop | cellDrop =>
    rcases hr : s.draggedEventRef with _ | r
    · constructor
      · simp [procTermSignal, handleDrop, hr]
      · intro r' hr'
        simp [procTermSignal, handleDrop, hr] at hr'
    · rcases hdd : r.dragData with _ | dd
      · constructor
        · simp [procTermSignal, handleDrop, hr, hdd]
        · have : handleDrop events s = (s, []) := by simp [handleDrop, hr, hdd]
          simpa [procTermSignal, this] using h
      · have hz : dd.currentDate - dd.startDate = 0 := by
          rw [h r hr dd hdd]; ring
        have : handleDrop events s = (s, []) := by simp [handleDrop, hr, hdd, hz]
        constructor
        · simp [procTermSignal, this]
        · simpa [procTermSignal, this] using h
  all_goals {
    rcases hr : s.draggedEventRef with _ | r
    · refine ⟨by simp [procTermSignal, handleDocDragEnd, hr], ?_⟩
      have : (handleDocDragEnd s).1 = resetDragState s := handleDocDragEnd_fst s
      simpa [procTermSignal, this] using hreset s
    · rcases hdd : r.dragData with _ | dd
      · refine ⟨by simp [procTermSignal, handleDocDragEnd, hr, hdd], ?_⟩
        have : (handleDocDragEnd s).1 = resetDragState s := handleDocDragEnd_fst s
        simpa [procTermSignal, this] using hreset s
      · have hz : dd.currentDate - dd.startDate = 0 := by
          rw [h r hr dd hdd]; ring
        refine ⟨by simp [procTermSignal, handleDocDragEnd, hr, hdd, hz], ?_⟩
        have : (handleDocDragEnd s).1 = resetDragState s := handleDocDragEnd_fst s
        simpa [procTermSignal, this] using hreset s }

/-- A quiescent state emits nothing under a whole signal sequence. -/
lemma quiescent_procTermSignals (events : List RCEvent) :
    ∀ (sigs : List TermSignal) (s : DragState), quiescent s →
      (procTermSignals events s sigs).2 = []
  | [], _, _ => rfl
  | sig :: rest, s, h => by
    have h1 := quiescent_procTermSignal events s sig h
    have h2 := quiescent_procTermSignals events rest (procTermSignal events s sig).1 h1.2
    simp [procTermSignals, h1.1, h2]

/-! ## C2: idempotent termination -/

/-- Length form of the per-signal emission case split. -/
lemma procTermSignal_length (events : List RCEvent) (s : DragState)
    (sig : TermSignal) :
    (procTermSignal events s sig).2.length ≤ 1 := by
  rcases procTermSignal_emit events s sig with h | ⟨cb, h, _⟩ <;> simp [h]

/-- Across any termination-signal sequence at most one callback is ever
emitted. -/
lemma procTermSignals_length (events : List RCEvent) :
    ∀ (sigs : List TermSignal) (s : DragState),
      (procTermSignals events s sigs).2.length ≤ 1
  | [], _ => by simp [procTermSignals]
  | sig :: rest, s => by
    rcases procTermSignal_emit events s sig with h | ⟨cb, h, href⟩
    · have := procTermSignals_length events rest (procTermSignal events s sig).1
      simpa [procTermSignals, h] using this
    · have := procTermSignals_refNone events rest (procTermSignal events s sig).1 href
      simp [procTermSignals, h, this.1]

/-- C2: however many redundant termination signals fire, in whatever order,
at most one relocate callback results, and once the session is idle (empty
dragged-event ref) every subsequent signal emits nothing — termination is
idempotent. -/
theorem c2_termination_idempotent (events : List RCEvent) (s : DragState)
    (sigs : List TermSignal) :
    (procTermSignals events s sigs).2.length ≤ 1 ∧
    (s.draggedEventRef = none → (procTermSignals events s sigs).2 = []) :=
  ⟨procTermSignals_length events sigs s,
   fun h => (procTermSignals_refNone events sigs s h).1⟩

/-- C2 witness: the spec's concrete scenario — document `drop` then
document `dragend` for the same completed gesture — emits exactly one
callback, and from the idle state both signals emit nothing. -/
theorem c2_termination_idempotent_witness :
    (procTermSignals [sampleEvent] activeDropState
        [TermSignal.docDrop, TermSignal.docDragEnd]).2.length = 1 ∧
    (procTermSignals [sampleEvent] initialDragState
        [TermSignal.docDrop, TermSignal.docDragEnd]).2 = [] := by
  constructor
  · have h := (c2_termination_idempotent [sampleEvent] activeDropState
      [TermSignal.docDrop, TermSignal.docDragEnd]).1
    have hge : (procTermSignals [sampleEvent] activeDropState
        [TermSignal.docDrop, TermSignal.docDragEnd]).2.length = 1 := by decide
    exact hge
  · exact (c2_termination_idempotent [sampleEvent] initialDragState
      [TermSignal.docDrop, TermSignal.docDragEnd]).2 rfl

/-! ## C1: commit policy of a full gesture -/

/-- Through any sequence of position updates, the ref keeps the original
event and the anchor date, its current date tracks the last extracted
position, and `draggedEventId` is untouched. -/
lemma applyMoves_shape (ev : RCEvent) (a : Day) :
    ∀ (ms : List (Int × Option Day)) (s : DragState) (c : Day),
      s.draggedEventRef =
        some { ev := ev, dragData := some { startDate := a, currentDate := c, isDragging := true } } →
      s.draggedEventId = some ev.id →
      (applyMoves s ms).draggedEventRef =
        some { ev := ev, dragData := some { startDate := a, currentDate := lastExtracted c ms, isDragging := true } } ∧
      (applyMoves s ms).draggedEventId = some ev.id
  | [], s, c, href, hid => ⟨href, hid⟩
  | (t, none) :: rest, s, c, href, hid => by
    have hstep : handleDocDragOver s t none = s := by
      simp [handleDocDragOver, href]
    rw [show applyMoves s ((t, none) :: rest) = applyMoves (handleDocDragOver s t none) rest from rfl,
        hstep, show lastExtracted c ((t, none) :: rest) = lastExtracted c rest from rfl]
    exact applyMoves_shape ev a rest s c href hid
  | (t, some d) :: rest, s, c, href, hid => by
    have hstep :
        (handleDocDragOver s t (some d)).draggedEventRef =
          some { ev := ev, dragData := some { startDate := a, currentDate := d, isDragging := true } } ∧
        (handleDocDragOver s t (some d)).draggedEventId = some ev.id := by
      constructor <;> simp [handleDocDragOver, href, hid]
    rw [show applyMoves s ((t, some d) :: rest) = applyMoves (handleDocDragOver s t (some d)) rest from rfl,
        show lastExtracted c ((t, some d) :: rest) = lastExtracted d rest from rfl]
    exact applyMoves_shape ev a rest (handleDocDragOver s t (some d)) d hstep.1 hstep.2

/-- C1: for a full gesture — start on `ev` at anchor `a`, any sequence of
position updates, then any nonempty sequence of termination signals whose
first member is one of the commit-processing handlers (document/element
`dragend`, document/cell `drop`) — with `k` the day offset between the last
extracted position and the anchor: if `k ≠ 0` the relocate callback fires
exactly once, with both boundaries shifted by `k` relative to the dragged
event's original pre-drag boundaries; if `k = 0` it never fires.  The
`hfind` hypothesis says the dragged event is (the first event with its id)
in the authoritative list handed to the drop handler. -/
theorem c1_relocate_commit_policy (events : List RCEvent) (s0 : DragState)
    (ev : RCEvent) (a : Day) (ms : List (Int × Option Day))
    (fs : TermSignal) (rest : List TermSignal)
    (hfind : events.find? (fun e => e.id == ev.id) = some ev)
    (hfs : fs ≠ TermSignal.effectDragEnd) :
    (procTermSignals events (applyMoves (handleDragStart s0 ev a) ms)
        (fs :: rest)).2 =
      (if lastExtracted a ms = a then []
       else [{ ev := ev,
               newStartDate := ev.startDate + (lastExtracted a ms - a),
               newEndDate := ev.endDate + (lastExtracted a ms - a) }]) := by
  set s1 := applyMoves (handleDragStart s0 ev a) ms with hs1
  obtain ⟨href, hid⟩ :=
    applyMoves_shape ev a ms (handleDragStart s0 ev a) a
      (by simp [handleDragStart]) (by simp [handleDragStart])
  rw [← hs1] at href hid
  by_cases hk : lastExtracted a ms = a
  · -- zero offset: the post-gesture state is quiescent, nothing is emitted
    rw [if_pos hk]
    apply quiescent_procTermSignals events (fs :: rest) s1
    intro r hr dd hdd
    rw [href] at hr
    cases hr
    cases hdd
    exact hk
  · -- nonzero offset
    rw [if_neg hk]
    have hkz : (lastExtracted a ms - a : Int) ≠ 0 := sub_ne_zero.mpr hk
    have hrest : ∀ s' : DragState, s'.draggedEventRef = none →
        (procTermSignals events s' rest).2 = [] :=
      fun s' h => (procTermSignals_refNone events rest s' h).1
    have hde : (procTermSignals events s1 (TermSignal.docDragEnd :: rest)).2 =
        [{ ev := ev,
           newStartDate := ev.startDate + (lastExtracted a ms - a),
           newEndDate := ev.endDate + (lastExtracted a ms - a) }] := by
      have hhead : handleDocDragEnd s1 =
          (resetDragState s1,
           [{ ev := ev,
              newStartDate := ev.startDate + (lastExtracted a ms - a),
              newEndDate := ev.endDate + (lastExtracted a ms - a) }]) := by
        simp [handleDocDragEnd, href, hkz]
      simp [procTermSignals, procTermSignal, hhead,
        hrest (resetDragState s1) rfl]
    have hdr : (procTermSignals events s1 (TermSignal.docDrop :: rest)).2 =
        [{ ev := ev,
           newStartDate := ev.startDate + (lastExtracted a ms - a),
           newEndDate := ev.endDate + (lastExtracted a ms - a) }] := by
      have hhead : handleDrop events s1 =
          ({ s1 with draggedEventId := none, dragCurrentDate := none,
                     draggedEventRef := none },
           [{ ev := ev,
              newStartDate := ev.startDate + (lastExtracted a ms - a),
              newEndDate := ev.endDate + (lastExtracted a ms - a) }]) := by
        simp [handleDrop, href, hid, hkz, hfind]
      simp [procTermSignals, procTermSignal, hhead]
      exact hrest _ rfl
    cases fs with
    | docDragEnd => exact hde
    | elemDragEnd => exact hde
    | docDrop => exact hdr
    | cellDrop => exact hdr
    | effectDragEnd => exact absurd rfl hfs

/-- C1 witness: the spec's concrete scenario — dragging the 3-day event
from anchor day 0 to day 3 and releasing shifts both boundaries by 3 days
and fires exactly once even though a redundant dragend follows. -/
theorem c1_relocate_commit_policy_witness :
    (procTermSignals [sampleEvent]
        (applyMoves (handleDragStart initialDragState sampleEvent 0) [(100, some 3)])
        [TermSignal.docDragEnd, TermSignal.effectDragEnd]).2 =
      [{ ev := sampleEvent, newStartDate := 13, newEndDate := 15 }] := by
  have h := c1_relocate_commit_policy [sampleEvent] initialDragState sampleEvent 0
    [(100, some 3)] TermSignal.docDragEnd [TermSignal.effectDragEnd]
    (by decide) (by decide)
  simpa [sampleEvent] using h

/-! ## C6: lane assignment -/

/-- C6 counterexample: two non-busy events of equal (1-day) duration — the
sort's tie is broken by original list order, so permuting the input list
changes the lane of id "a" from 1 to 2, refuting lane stability under
arbitrary reordering. -/
theorem c6_lane_tie_counterexample :
    laneOf [{ id := "a", title := "A", startDate := 0, endDate := 0 },
            { id := "b", title := "B", startDate := 0, endDate := 0 }] "a" = some 1 ∧
    laneOf [{ id := "b", title := "B", startDate := 0, endDate := 0 },
            { id := "a", title := "A", startDate := 0, endDate := 0 }] "a" = some 2 ∧
    List.Perm
      [({ id := "a", title := "A", startDate := 0, endDate := 0 } : RCEvent),
       { id := "b", title := "B", startDate := 0, endDate := 0 }]
      [{ id := "b", title := "B", startDate := 0, endDate := 0 },
       { id := "a", title := "A", startDate := 0, endDate := 0 }] := by
  refine ⟨rfl, rfl, ?_⟩
  exact List.Perm.swap _ _ _

/-- The strict version of the sort order: strictly longer duration. -/
def laneOrderStrict (a b : RCEvent) : Prop := durationDays b < durationDays a

instance : IsAntisymm RCEvent laneOrderStrict :=
  ⟨fun a b h1 h2 => absurd (lt_trans h1 h2) (lt_irrefl _)⟩

/-- `keepFirstIds` on a list with no id in `seen` and pairwise-distinct ids
is just the id projection. -/
lemma keepFirstIds_of_nodup :
    ∀ (l : List RCEvent) (seen : List String),
      (l.map (fun e => e.id)).Nodup → (∀ e ∈ l, e.id ∉ seen) →
      keepFirstIds seen l = l.map (fun e => e.id)
  | [], _, _, _ => rfl
  | e :: t, seen, hnodup, hseen => by
    have he : e.id ∉ seen := hseen e (List.mem_cons_self e t)
    have hnd := (List.nodup_cons.mp hnodup)
    rw [keepFirstIds, if_neg he]
    rw [keepFirstIds_of_nodup t (e.id :: seen) hnd.2 ?_]
    · rfl
    · intro f hf
      simp only [List.mem_cons]
      rintro (h | h)
      · exact hnd.1 (List.mem_map.mpr ⟨f, hf, h⟩)
      · exact hseen f (List.mem_cons_of_mem e hf) h

/-- When ids are pairwise distinct, the only event of `l` with id `e.id`
is `e` itself. -/
lemma filter_id_eq_singleton :
    ∀ (l : List RCEvent), (l.map (fun e => e.id)).Nodup →
      ∀ e ∈ l, l.filter (fun x => x.id == e.id) = [e]
  | [], _, e, he => absurd he (List.not_mem_nil e)
  | f :: t, hnodup, e, he => by
    have hnd := List.nodup_cons.mp hnodup
    rcases List.mem_cons.mp he with rfl | het
    · rw [List.filter_cons, if_pos (by simp)]
      have : t.filter (fun x => x.id == e.id) = [] := by
        apply List.filter_eq_nil.mpr
        intro x hx
        simp only [beq_iff_eq]
        intro hxe
        exact hnd.1 (List.mem_map.mpr ⟨x, hx, hxe⟩)
      rw [this]
    · have hne : f.id ≠ e.id := by
        intro hfe
        exact hnd.1 (List.mem_map.mpr ⟨e, het, hfe.symm⟩)
      rw [List.filter_cons, if_neg (by simp [hne])]
      exact filter_id_eq_singleton t hnd.2 e het

/-- `filterMap` with a pointwise-identity function is the identity. -/
lemma filterMap_id_of_mem {α : Type} (h : α → Option α) :
    ∀ (l : List α), (∀ e ∈ l, h e = some e) → l.filterMap h = l
  | [], _ => rfl
  | e :: t, hp => by
    rw [List.filterMap_cons, hp e (List.mem_cons_self e t),
        filterMap_id_of_mem h t (fun f hf => hp f (List.mem_cons_of_mem e hf))]

/-- With pairwise-distinct ids the JavaScript-Map dedup is the identity. -/
lemma dedupById_of_nodup (l : List RCEvent)
    (hnodup : (l.map (fun e => e.id)).Nodup) : dedupById l = l := by
  unfold dedupById
  rw [keepFirstIds_of_nodup l [] hnodup (by simp)]
  rw [List.filterMap_map]
  apply filterMap_id_of_mem
  intro e he
  show lastWithId l e.id = some e
  unfold lastWithId
  rw [filter_id_eq_singleton l hnodup e he]
  rfl

/-- Membership in an `idIndex` hit. -/
lemma idIndex_some_mem (i : String) :
    ∀ (l : List String) (n : Nat), idIndex i l = some n → i ∈ l
  | [], n, h => by simp [idIndex] at h
  | j :: t, n, h => by
    by_cases hj : (j == i) = true
    · exact List.mem_cons.mpr (Or.inl (beq_iff_eq.mp hj).symm)
    · rw [idIndex, if_neg hj] at h
      rcases Option.map_eq_some'.mp h with ⟨m, hm, _⟩
      exact List.mem_cons_of_mem j (idIndex_some_mem i t m hm)

/-- An id absent from a list has no index. -/
lemma idIndex_none (i : String) :
    ∀ (l : List String), i ∉ l → idIndex i l = none
  | [], _ => rfl
  | j :: t, h => by
    have hj : (j == i) = false := by
      simp only [beq_eq_false_iff_ne]
      exact fun hji => h (hji ▸ List.mem_cons_self j t)
    rw [idIndex, if_neg (by simp [hj]), idIndex_none i t (fun ht => h (List.mem_cons_of_mem j ht))]
    rfl

/-- C6 amended: for lists of events with pairwise-distinct ids, lane
assignment deduplicates by id, excludes busy events, sorts by descending
inclusive duration and assigns lanes starting at rank 1; when all non-busy
durations are distinct (so the tie-break by original order never applies),
each event id receives the same lane for any permutation of the list; busy
events receive no lane, and every assigned lane belongs to a non-busy event
of the list. -/
theorem c6_lane_assignment_amended (l1 l2 : List RCEvent)
    (hperm : l1.Perm l2)
    (hnodup : (l1.map (fun e => e.id)).Nodup)
    (hdistinct : (nonBusy l1).Pairwise (fun a b => durationDays a ≠ durationDays b)) :
    (∀ i, laneOf l1 i = laneOf l2 i) ∧
    (∀ e ∈ l1, e.status = some "busy" → laneOf l1 e.id = none) ∧
    (∀ i k, laneOf l1 i = some k →
      1 ≤ k ∧ ∃ e ∈ l1, e.id = i ∧ e.status ≠ some "busy") := by
  have hsymm : ∀ {x y : RCEvent},
      durationDays x ≠ durationDays y → durationDays y ≠ durationDays x :=
    fun h => Ne.symm h
  have hnb : (nonBusy l1).Perm (nonBusy l2) := hperm.filter _
  have hnodupNb1 : ((nonBusy l1).map (fun e => e.id)).Nodup :=
    List.Nodup.sublist (List.Sublist.map _ (List.filter_sublist l1)) hnodup
  have hnodupNb2 : ((nonBusy l2).map (fun e => e.id)).Nodup :=
    ((hnb.map (fun e => e.id)).nodup_iff).mp hnodupNb1
  have hded1 : dedupById (nonBusy l1) = nonBusy l1 := dedupById_of_nodup _ hnodupNb1
  have hded2 : dedupById (nonBusy l2) = nonBusy l2 := dedupById_of_nodup _ hnodupNb2
  have hs1p : (List.insertionSort laneOrder (nonBusy l1)).Perm (nonBusy l1) :=
    List.perm_insertionSort laneOrder (nonBusy l1)
  have hs2p : (List.insertionSort laneOrder (nonBusy l2)).Perm (nonBusy l2) :=
    List.perm_insertionSort laneOrder (nonBusy l2)
  have hsorted1 : (List.insertionSort laneOrder (nonBusy l1)).Pairwise laneOrder :=
    List.sorted_insertionSort laneOrder (nonBusy l1)
  have hsorted2 : (List.insertionSort laneOrder (nonBusy l2)).Pairwise laneOrder :=
    List.sorted_insertionSort laneOrder (nonBusy l2)
  have hne1 : (List.insertionSort laneOrder (nonBusy l1)).Pairwise
      (fun a b => durationDays a ≠ durationDays b) :=
    (hs1p.pairwise_iff hsymm).mpr hdistinct
  have hne2 : (List.insertionSort laneOrder (nonBusy l2)).Pairwise
      (fun a b => durationDays a ≠ durationDays b) :=
    (hs2p.pairwise_iff hsymm).mpr ((hnb.pairwise_iff hsymm).mp hdistinct)
  have hstrict1 : (List.insertionSort laneOrder (nonBusy l1)).Pairwise laneOrderStrict := by
    have := List.pairwise_and_iff.mpr ⟨hsorted1, hne1⟩
    exact this.imp (fun h => lt_of_le_of_ne h.1 (Ne.symm h.2))
  have hstrict2 : (List.insertionSort laneOrder (nonBusy l2)).Pairwise laneOrderStrict := by
    have := List.pairwise_and_iff.mpr ⟨hsorted2, hne2⟩
    exact this.imp (fun h => lt_of_le_of_ne h.1 (Ne.symm h.2))
  have hSeq : List.insertionSort laneOrder (nonBusy l1) =
      List.insertionSort laneOrder (nonBusy l2) :=
    List.eq_of_perm_of_sorted (hs1p.trans (hnb.trans hs2p.symm)) hstrict1 hstrict2
  have hrank1 : rankedIds l1 =
      (List.insertionSort laneOrder (nonBusy l1)).map (fun e => e.id) := by
    unfold rankedIds sortedUniqueEvents
    rw [hded1]
  have hrank2 : rankedIds l2 =
      (List.insertionSort laneOrder (nonBusy l2)).map (fun e => e.id) := by
    unfold rankedIds sortedUniqueEvents
    rw [hded2]
  refine ⟨?_, ?_, ?_⟩
  · intro i
    unfold laneOf
    rw [hrank1, hrank2, hSeq]
  · intro e he hbusy
    have hmem : e.id ∉ rankedIds l1 := by
      rw [hrank1]
      intro hin
      rcases List.mem_map.mp hin with ⟨g, hg, hgid⟩
      have hgnb : g ∈ nonBusy l1 := hs1p.mem_iff.mp hg
      have hgl1 : g ∈ l1 := List.mem_of_mem_filter hgnb
      have hge : g = e := List.inj_on_of_nodup_map hnodup hgl1 he hgid
      have hgf : g ∈ l1.filter (fun e => e.status != some "busy") := hgnb
      have : (g.status != some "busy") = true := (List.mem_filter.mp hgf).2
      rw [hge, hbusy] at this
      simp at this
    unfold laneOf
    rw [idIndex_none e.id (rankedIds l1) hmem]
    rfl
  · intro i k hk
    unfold laneOf at hk
    rcases Option.map_eq_some'.mp hk with ⟨n, hn, hkn⟩
    constructor
    · omega
    · have hin : i ∈ rankedIds l1 := idIndex_some_mem i (rankedIds l1) n hn
      rw [hrank1] at hin
      rcases List.mem_map.mp hin with ⟨g, hg, hgid⟩
      have hgnb : g ∈ nonBusy l1 := hs1p.mem_iff.mp hg
      refine ⟨g, List.mem_of_mem_filter hgnb, hgid, ?_⟩
      have hgf : g ∈ l1.filter (fun e => e.status != some "busy") := hgnb
      have : (g.status != some "busy") = true := (List.mem_filter.mp hgf).2
      simpa using this

/-- C6 amended witness: two events of distinct durations keep their lanes
under swapping, the longer one in lane 1. -/
theorem c6_lane_assignment_amended_witness :
    laneOf [sampleEvent, { id := "a", title := "A", startDate := 0, endDate := 0 }] "1" =
      laneOf [{ id := "a", title := "A", startDate := 0, endDate := 0 }, sampleEvent] "1" ∧
    laneOf [sampleEvent, { id := "a", title := "A", startDate := 0, endDate := 0 }] "1" =
      some 1 := by
  have h := c6_lane_assignment_amended
    [sampleEvent, { id := "a", title := "A", startDate := 0, endDate := 0 }]
    [{ id := "a", title := "A", startDate := 0, endDate := 0 }, sampleEvent]
    (List.Perm.swap _ _ _) (by decide) (by decide)
  exact ⟨h.1 "1", by decide⟩
